import Mathlib

/-!
# cyw43-driver: firmware layout record and firmware loader table

Shallow embedding of `firmware/firmware_details_43439.h` and of the two
struct types of `src/firmware_defs.h`.

Conventions of the embedding.

* A pointer to `uint8_t` is the integer address of the byte it designates;
  adding an `int` to it adds the signed value of the `int` (element size 1).
* An `int` is its twos-complement bit pattern, a natural number below
  `2 ^ int_bits`; `size_t` is a natural number below `2 ^ size_bits`.
  Both additions wrap.
* A function pointer is the name of the function it designates, or `none`
  for `NULL`.
* The two preprocessor flags are the two fields of `build_config`; the
  objects and macros of the included firmware headers are the fields of
  `firmware_image`.
-/

namespace Cyw43

/-! ## Target integer types -/

/-- Widths of the integer types of the target. C guarantees 16 bits for `int`;
`size_t` has at least the rank of `int`, so a mixed operation converts the
`int` operand to `size_t`. -/
structure target where
  int_bits : Nat
  size_bits : Nat
  int_min : 16 ≤ int_bits
  size_ge_int : int_bits ≤ size_bits

/-- Arm Cortex-M0+ (RP2040): 32-bit `int`, 32-bit `size_t`. -/
def ilp32 : target := ⟨32, 32, by decide, by decide⟩

/-- An LP64 host: 32-bit `int`, 64-bit `size_t`. -/
def lp64 : target := ⟨32, 64, by decide, by decide⟩

/-- Addition `a + b` in `int` (wrapping). -/
def int_add (t : target) (a b : Nat) : Nat := (a + b) % 2 ^ t.int_bits

/-- Complement `~a` in `int`: every bit of the pattern flipped. -/
def int_not (t : target) (a : Nat) : Nat := 2 ^ t.int_bits - 1 - a

/-- Bitwise `a & b` on two bit patterns. -/
def bit_and (a b : Nat) : Nat := a &&& b

/-- Signed value of an `int` bit pattern. -/
def int_val (t : target) (a : Nat) : Int :=
  if a < 2 ^ (t.int_bits - 1) then (a : Int) else (a : Int) - 2 ^ t.int_bits

/-- Conversion of an `int` to `size_t`: the signed value modulo `2 ^ size_bits`. -/
def size_of_int (t : target) (a : Nat) : Nat :=
  (int_val t a % 2 ^ t.size_bits).toNat

/-- Addition `a + b` in `size_t` (wrapping). -/
def size_add (t : target) (a b : Nat) : Nat := (a + b) % 2 ^ t.size_bits

/-- Pointer sum `p + k` for a `const uint8_t *p` and an `int` k. -/
def ptr_add (t : target) (p : Int) (k : Nat) : Int := p + int_val t k

/-! ## Build configuration and included firmware headers -/

/-- The two preprocessor flags the headers test. -/
structure build_config where
  CYW43_ENABLE_BLUETOOTH : Bool
  CYW43_ENABLE_FIRMWARE_COMPRESSION : Bool
deriving DecidableEq, Repr

/-- What `CYW43_CHIPSET_FIRMWARE_INCLUDE_FILE`, `CYW43_WIFI_NVRAM_INCLUDE_FILE`
and `CYW43_BT_FIRMWARE_INCLUDE_FILE` provide. Arrays are given by the address of
their first byte; lengths are object lengths and are stored unchanged in a
`size_t` member. The three `bt_` entries are read only in a Bluetooth build. -/
structure firmware_image where
  fw_data : Int
  fw_data_len : Nat
  CYW43_WIFI_FW_LEN : Nat
  CYW43_CLM_LEN : Nat
  wifi_nvram_4343 : Int
  sizeof_wifi_nvram_4343 : Nat
  bt_fw_data : Int
  bt_fw_data_len : Nat
  CYW43_BT_FW_LEN : Nat
deriving DecidableEq, Repr

/-! ## `cyw43_firmware_details_t` -/

/-- The three members inside `#if CYW43_ENABLE_BLUETOOTH`. -/
structure bt_members where
  raw_bt_fw_size : Nat
  bt_fw_size : Nat
  bt_fw_addr : Int
deriving DecidableEq, Repr

/-- The conditional block of the struct: three members in a Bluetooth build,
nothing otherwise. -/
def bt_members_if : Bool → Type
  | true => bt_members
  | false => Unit

/-- The `struct cyw43_firmware_details` of a build with the given Bluetooth flag. -/
structure cyw43_firmware_details_t (bluetooth : Bool) where
  raw_wifi_fw_size : Nat
  raw_data : Int
  wifi_fw_size : Nat
  clm_size : Nat
  wifi_fw_addr : Int
  clm_addr : Int
  wifi_nvram_len : Nat
  wifi_nvram_data : Int
  bt : bt_members_if bluetooth

/-- The Bluetooth members of a record, when the build has them. -/
def bt_view : (bluetooth : Bool) → bt_members_if bluetooth → Option bt_members
  | true, b => some b
  | false, _ => none

/-- Lines 63 to 67: the three Bluetooth assignments, compiled in only when
`CYW43_ENABLE_BLUETOOTH` is set. -/
def bt_assignments (img : firmware_image) :
    (bluetooth : Bool) → bt_members_if bluetooth → bt_members_if bluetooth
  | true, b =>
    let b : bt_members := { b with raw_bt_fw_size := img.bt_fw_data_len }
    let b : bt_members := { b with bt_fw_size := img.CYW43_BT_FW_LEN }
    let b : bt_members := { b with bt_fw_addr := img.bt_fw_data }
    b
  | false, b => b

/-- Function `cyw43_firmware_details`: the assignments of lines 55 to 67 in order
(the comma that ends line 58 sequences like a semicolon), on the record the
caller passes. `CYW43_WIFI_FW_LEN` is an integer-literal macro, so
`(CYW43_WIFI_FW_LEN + 511) & ~511` is evaluated in `int` and then added to the
pointer; `sizeof(wifi_nvram_4343)` is a `size_t`, so `63` and `~63` are converted
to `size_t` before the sum and the mask. -/
def cyw43_firmware_details (t : target) (img : firmware_image) (cfg : build_config)
    (firmware_details : cyw43_firmware_details_t cfg.CYW43_ENABLE_BLUETOOTH) :
    cyw43_firmware_details_t cfg.CYW43_ENABLE_BLUETOOTH :=
  let d := firmware_details
  let d := { d with raw_wifi_fw_size := img.fw_data_len }
  let d := { d with raw_data := img.fw_data }
  let d := { d with wifi_fw_size := img.CYW43_WIFI_FW_LEN }
  let d := { d with clm_size := img.CYW43_CLM_LEN }
  let d := { d with wifi_fw_addr := img.fw_data }
  let d := { d with
    clm_addr :=
      ptr_add t img.fw_data (bit_and (int_add t img.CYW43_WIFI_FW_LEN 511) (int_not t 511)) }
  let d := { d with
    wifi_nvram_len :=
      bit_and (size_add t img.sizeof_wifi_nvram_4343 (size_of_int t 63))
        (size_of_int t (int_not t 63)) }
  let d := { d with wifi_nvram_data := img.wifi_nvram_4343 }
  let d := { d with bt := bt_assignments img cfg.CYW43_ENABLE_BLUETOOTH d.bt }
  d

/-! ## `cyw43_firmware_funcs_t` -/

/-- Functions of type `int (*)(const cyw43_firmware_details_t *)` declared in
`firmware_defs.h`. -/
inductive start_fn
  | cyw43_wifi_firmware_decompress_start
  | cyw43_bt_firmware_decompress_start
deriving DecidableEq, Repr

/-- Functions of type
`const uint8_t *(*)(const uint8_t *, size_t, uint8_t *, size_t)` declared in
`firmware_defs.h`. -/
inductive get_fn
  | wifi_firmware_get_storage
  | cyw43_firmware_embedded_get
  | cyw43_firmware_decompress_get
deriving DecidableEq, Repr

/-- Functions of type `int (*)(uint8_t *, const uint8_t *, uint32_t)` declared in
`firmware_defs.h`. -/
inductive copy_fn
  | cyw43_firmware_copy_embedded
  | cyw43_firmware_decompress_copy
deriving DecidableEq, Repr

/-- Functions of type `void (*)(void)` declared in `firmware_defs.h`. -/
inductive end_fn
  | cyw43_firmware_decompress_end
deriving DecidableEq, Repr

/-- The `struct cyw43_firmware_funcs`: seven function pointers, in every build. The
member `end` is written `end_fw` here, `end` being a keyword. -/
structure cyw43_firmware_funcs_t where
  start_wifi_fw : Option start_fn
  start_bt_fw : Option start_fn
  get_wifi_fw : Option get_fn
  get_bt_fw : Option get_fn
  get_nvram : Option get_fn
  copy_clm : Option copy_fn
  end_fw : Option end_fn
deriving DecidableEq, Repr

/-- Function `cyw43_firmware_funcs`: the `static const` table of lines 79 to 97, whose
initialiser is chosen by `#if CYW43_ENABLE_FIRMWARE_COMPRESSION`. The pointer the
function returns is modelled by the table it points to. -/
def cyw43_firmware_funcs (cfg : build_config) : cyw43_firmware_funcs_t :=
  if cfg.CYW43_ENABLE_FIRMWARE_COMPRESSION then
    { start_wifi_fw := some .cyw43_wifi_firmware_decompress_start
      start_bt_fw := some .cyw43_bt_firmware_decompress_start
      get_wifi_fw := some .cyw43_firmware_decompress_get
      get_bt_fw := some .cyw43_firmware_decompress_get
      get_nvram := some .cyw43_firmware_embedded_get
      copy_clm := some .cyw43_firmware_decompress_copy
      end_fw := some .cyw43_firmware_decompress_end }
  else
    { start_wifi_fw := none
      start_bt_fw := none
      get_wifi_fw := some .cyw43_firmware_embedded_get
      get_bt_fw := some .cyw43_firmware_embedded_get
      get_nvram := some .cyw43_firmware_embedded_get
      copy_clm := some .cyw43_firmware_copy_embedded
      end_fw := none }

/-! ## Backends -/

/-- The three families of loader functions `firmware_defs.h` declares: data read
from flash storage, data embedded in the binary, data decompressed. -/
inductive backend
  | storage
  | embedded
  | decompress
deriving DecidableEq, Repr

/-- Backend of a start function: both are "Start ... firmware decompression". -/
def start_fn.backend : start_fn → backend
  | .cyw43_wifi_firmware_decompress_start => .decompress
  | .cyw43_bt_firmware_decompress_start => .decompress

/-- Backend of a get function. -/
def get_fn.backend : get_fn → backend
  | .wifi_firmware_get_storage => .storage
  | .cyw43_firmware_embedded_get => .embedded
  | .cyw43_firmware_decompress_get => .decompress

/-- Backend of a copy function. -/
def copy_fn.backend : copy_fn → backend
  | .cyw43_firmware_copy_embedded => .embedded
  | .cyw43_firmware_decompress_copy => .decompress

/-- Backend of the end function: "End firmware decompression process". -/
def end_fn.backend : end_fn → backend
  | .cyw43_firmware_decompress_end => .decompress

/-- Backends of the functions bound in the six slots other than `get_nvram`, in
member order; a null slot contributes nothing. -/
def bound_backends (tbl : cyw43_firmware_funcs_t) : List backend :=
  (tbl.start_wifi_fw.map start_fn.backend).toList
    ++ (tbl.start_bt_fw.map start_fn.backend).toList
    ++ (tbl.get_wifi_fw.map get_fn.backend).toList
    ++ (tbl.get_bt_fw.map get_fn.backend).toList
    ++ (tbl.copy_clm.map copy_fn.backend).toList
    ++ (tbl.end_fw.map end_fn.backend).toList

/-! ## Calls through the table

The bodies of the functions the table names are in other files; a call is
taken relative to an arbitrary behaviour `body` of those functions on an
arbitrary program state `σ`. A call through a null pointer has no result. -/

/-- Call `slot(fw_details)` through a start pointer. -/
def call_start {σ : Type} {bluetooth : Bool}
    (body : start_fn → cyw43_firmware_details_t bluetooth → σ → Int × σ)
    (slot : Option start_fn) (fw_details : cyw43_firmware_details_t bluetooth) (s : σ) :
    Option (Int × σ) :=
  match slot with
  | some f => some (body f fw_details s)
  | none => none

/-- Call `slot(addr, sz_in, buffer, buffer_len)` through a get pointer. -/
def call_get {σ : Type} (body : get_fn → Int → Nat → Int → Nat → σ → Int × σ)
    (slot : Option get_fn) (addr : Int) (sz_in : Nat) (buffer : Int) (buffer_len : Nat)
    (s : σ) : Option (Int × σ) :=
  match slot with
  | some f => some (body f addr sz_in buffer buffer_len s)
  | none => none

/-- Call `slot()` through the end pointer. -/
def call_end {σ : Type} (body : end_fn → σ → σ) (slot : Option end_fn) (s : σ) : Option σ :=
  match slot with
  | some f => some (body f s)
  | none => none

/-- An image with a 1000-byte WiFi firmware at address 4 and a 10-byte NVRAM. -/
def sample_image : firmware_image :=
  { fw_data := 4, fw_data_len := 2008, CYW43_WIFI_FW_LEN := 1000, CYW43_CLM_LEN := 984
    wifi_nvram_4343 := 5000, sizeof_wifi_nvram_4343 := 10
    bt_fw_data := 9000, bt_fw_data_len := 300, CYW43_BT_FW_LEN := 700 }

/-- The same image placed at a 512-aligned address. -/
def aligned_image : firmware_image := { sample_image with fw_data := 4096 }

/-- A caller record of a build without Bluetooth, all members zero. -/
def zero_details : cyw43_firmware_details_t false :=
  ⟨0, 0, 0, 0, 0, 0, 0, 0, ()⟩

/-- A caller record of a Bluetooth build with arbitrary prior content. -/
def stale_details : cyw43_firmware_details_t true :=
  ⟨7, 7, 7, 7, 7, 7, 7, 7, (⟨1, 2, 3⟩ : bt_members)⟩

/-- A start body that does nothing and returns 0, on the one-point state. -/
def idle_start : start_fn → cyw43_firmware_details_t false → Unit → Int × Unit :=
  fun _ _ s => (0, s)

/-! ## Arithmetic of the two masks -/

theorem and_high_mask (w k x : Nat) (hk : k ≤ w) (hx : x < 2 ^ w) :
    x &&& (2 ^ w - 2 ^ k) = x - x % 2 ^ k := by
  have h1 : 2 ^ w - 2 ^ k = 2 ^ k * (2 ^ (w - k) - 1) := by
    have hw : 2 ^ w = 2 ^ k * 2 ^ (w - k) := by
      rw [← Nat.pow_add]; congr 1; omega
    rw [hw, Nat.mul_sub, Nat.mul_one]
  have h2 : x - x % 2 ^ k = 2 ^ k * (x / 2 ^ k) := by
    have := Nat.div_add_mod x (2 ^ k)
    omega
  rw [h1, h2]
  apply Nat.eq_of_testBit_eq
  intro i
  rw [Nat.testBit_and, Nat.testBit_mul_pow_two, Nat.testBit_mul_pow_two,
    Nat.testBit_two_pow_sub_one, ← Nat.shiftRight_eq_div_pow, Nat.testBit_shiftRight]
  by_cases hi : k ≤ i
  · have e2 : k + (i - k) = i := by omega
    by_cases hw : i < w
    · have hlt : i - k < w - k := by omega
      simp [hi, hlt, e2]
    · have hf : x.testBit i = false := by
        apply Nat.testBit_lt_two_pow
        exact lt_of_lt_of_le hx (Nat.pow_le_pow_right (by decide) (by omega))
      have hlt : ¬ (i - k < w - k) := by omega
      simp [hi, hlt, hf, e2]
  · simp [hi]

theorem two_pow_int_bits (t : target) :
    2 ^ t.int_bits = 2 * 2 ^ (t.int_bits - 1) ∧ 2 ^ 15 ≤ 2 ^ (t.int_bits - 1) := by
  have h := t.int_min
  constructor
  · rw [← Nat.pow_succ']; congr 1; omega
  · exact Nat.pow_le_pow_right (by decide) (by omega)

theorem two_pow_size_bits (t : target) : 2 ^ 16 ≤ 2 ^ t.size_bits := by
  have h := t.int_min
  have h2 := t.size_ge_int
  exact Nat.pow_le_pow_right (by decide) (by omega)

/-- The `int` expression `(L + 511) & ~511`, when `L + 511` fits in `int`. -/
theorem clm_offset_eq (t : target) (L : Nat) (h : L + 511 < 2 ^ (t.int_bits - 1)) :
    bit_and (int_add t L 511) (int_not t 511) = L + 511 - (L + 511) % 512 ∧
    int_val t (bit_and (int_add t L 511) (int_not t 511))
      = ((L + 511 - (L + 511) % 512 : Nat) : Int) := by
  obtain ⟨hp, _⟩ := two_pow_int_bits t
  have hlt : L + 511 < 2 ^ t.int_bits := by omega
  have hmask : int_not t 511 = 2 ^ t.int_bits - 2 ^ 9 := by
    unfold int_not; omega
  have hadd : int_add t L 511 = L + 511 := by
    unfold int_add; exact Nat.mod_eq_of_lt hlt
  have hk : 9 ≤ t.int_bits := by have := t.int_min; omega
  have hand : bit_and (int_add t L 511) (int_not t 511) = L + 511 - (L + 511) % 512 := by
    unfold bit_and
    rw [hadd, hmask, and_high_mask t.int_bits 9 (L + 511) hk hlt]
    norm_num
  refine ⟨hand, ?_⟩
  rw [hand]
  unfold int_val
  have hsmall : L + 511 - (L + 511) % 512 < 2 ^ (t.int_bits - 1) := by omega
  rw [if_pos hsmall]

/-- The `size_t` expression `(n + 63) & ~63`, when `n + 63` fits in `size_t`. -/
theorem nvram_len_eq (t : target) (n : Nat) (h : n + 63 < 2 ^ t.size_bits) :
    bit_and (size_add t n (size_of_int t 63)) (size_of_int t (int_not t 63))
      = n + 63 - (n + 63) % 64 := by
  obtain ⟨hp, hp15⟩ := two_pow_int_bits t
  have hs := two_pow_size_bits t
  have h63 : size_of_int t 63 = 63 := by
    unfold size_of_int int_val
    have h1 : (63 : Nat) < 2 ^ (t.int_bits - 1) := by omega
    rw [if_pos h1]
    have h2 : ((63 : Nat) : Int) % 2 ^ t.size_bits = 63 := by
      apply Int.emod_eq_of_lt (by decide)
      have : ((2 ^ t.size_bits : Nat) : Int) = 2 ^ t.size_bits := by push_cast; rfl
      rw [← this]; omega
    rw [h2]; rfl
  have hmask : size_of_int t (int_not t 63) = 2 ^ t.size_bits - 2 ^ 6 := by
    unfold size_of_int int_val int_not
    have h1 : ¬ (2 ^ t.int_bits - 1 - 63 < 2 ^ (t.int_bits - 1)) := by omega
    rw [if_neg h1]
    have hc : ((2 ^ t.size_bits : Nat) : Int) = 2 ^ t.size_bits := by push_cast; rfl
    have hv : ((2 ^ t.int_bits - 1 - 63 : Nat) : Int) - 2 ^ t.int_bits = -64 := by
      have hc2 : ((2 ^ t.int_bits : Nat) : Int) = 2 ^ t.int_bits := by push_cast; rfl
      rw [← hc2]; omega
    rw [hv, ← hc]
    have he : (-64 : Int) % ((2 ^ t.size_bits : Nat) : Int)
        = ((2 ^ t.size_bits - 2 ^ 6 : Nat) : Int) := by
      have hval : (-64 : Int) + ((2 ^ t.size_bits : Nat) : Int)
          = ((2 ^ t.size_bits - 2 ^ 6 : Nat) : Int) := by omega
      rw [← Int.add_emod_self, hval]
      apply Int.emod_eq_of_lt <;> omega
    rw [he]; rfl
  have hadd : size_add t n 63 = n + 63 := by
    unfold size_add; exact Nat.mod_eq_of_lt h
  have hk : 6 ≤ t.size_bits := by
    have := t.int_min; have := t.size_ge_int; omega
  unfold bit_and
  rw [h63, hmask, hadd, and_high_mask t.size_bits 6 (n + 63) hk h]
  norm_num

/-! ## The layout record -/

theorem details_wifi_fw_size (t : target) (img : firmware_image) (cfg : build_config)
    (d : cyw43_firmware_details_t cfg.CYW43_ENABLE_BLUETOOTH) :
    (cyw43_firmware_details t img cfg d).wifi_fw_size = img.CYW43_WIFI_FW_LEN ∧
    (cyw43_firmware_details t img cfg d).wifi_fw_addr = img.fw_data := ⟨rfl, rfl⟩

theorem details_clm_addr (t : target) (img : firmware_image) (cfg : build_config)
    (d : cyw43_firmware_details_t cfg.CYW43_ENABLE_BLUETOOTH) :
    (cyw43_firmware_details t img cfg d).clm_addr
      = ptr_add t img.fw_data
          (bit_and (int_add t img.CYW43_WIFI_FW_LEN 511) (int_not t 511)) := rfl

theorem details_wifi_nvram_len (t : target) (img : firmware_image) (cfg : build_config)
    (d : cyw43_firmware_details_t cfg.CYW43_ENABLE_BLUETOOTH) :
    (cyw43_firmware_details t img cfg d).wifi_nvram_len
      = bit_and (size_add t img.sizeof_wifi_nvram_4343 (size_of_int t 63))
          (size_of_int t (int_not t 63)) := rfl

/-- The value of `clm_addr` when `CYW43_WIFI_FW_LEN + 511` fits in `int`. -/
theorem details_clm_addr_val (t : target) (img : firmware_image) (cfg : build_config)
    (d : cyw43_firmware_details_t cfg.CYW43_ENABLE_BLUETOOTH)
    (h : img.CYW43_WIFI_FW_LEN + 511 < 2 ^ (t.int_bits - 1)) :
    (cyw43_firmware_details t img cfg d).clm_addr
      = img.fw_data
          + ((img.CYW43_WIFI_FW_LEN + 511 - (img.CYW43_WIFI_FW_LEN + 511) % 512 : Nat) : Int) := by
  rw [details_clm_addr]
  unfold ptr_add
  rw [(clm_offset_eq t img.CYW43_WIFI_FW_LEN h).2]

/-- C1: when `CYW43_WIFI_FW_LEN + 511` does not overflow `int`, `clm_addr` lies
exactly `k` bytes after `wifi_fw_addr`, where `k` is the value of the C expression
`(CYW43_WIFI_FW_LEN + 511) & ~511`, and `k` is the smallest multiple of 512 that
is at least `wifi_fw_size`: it is a multiple of 512 with
`wifi_fw_size ≤ k < wifi_fw_size + 512`. -/
theorem clm_addr_offset_align_up_512 (t : target) (img : firmware_image)
    (cfg : build_config) (d : cyw43_firmware_details_t cfg.CYW43_ENABLE_BLUETOOTH)
    (h : img.CYW43_WIFI_FW_LEN + 511 < 2 ^ (t.int_bits - 1)) :
    ∃ k : Nat,
      k = bit_and (int_add t img.CYW43_WIFI_FW_LEN 511) (int_not t 511) ∧
      (cyw43_firmware_details t img cfg d).clm_addr
        - (cyw43_firmware_details t img cfg d).wifi_fw_addr = (k : Int) ∧
      512 ∣ k ∧
      (cyw43_firmware_details t img cfg d).wifi_fw_size ≤ k ∧
      k < (cyw43_firmware_details t img cfg d).wifi_fw_size + 512 ∧
      ∀ m : Nat, 512 ∣ m → (cyw43_firmware_details t img cfg d).wifi_fw_size ≤ m → k ≤ m := by
  refine ⟨img.CYW43_WIFI_FW_LEN + 511 - (img.CYW43_WIFI_FW_LEN + 511) % 512,
    (clm_offset_eq t img.CYW43_WIFI_FW_LEN h).1.symm, ?_, ?_, ?_, ?_, ?_⟩
  · rw [details_clm_addr_val t img cfg d h, (details_wifi_fw_size t img cfg d).2]
    omega
  · omega
  · rw [(details_wifi_fw_size t img cfg d).1]; omega
  · rw [(details_wifi_fw_size t img cfg d).1]; omega
  · intro m hm hle
    rw [(details_wifi_fw_size t img cfg d).1] at hle
    omega

/-- C1 at `CYW43_WIFI_FW_LEN = 1000` on the 32-bit target: `clm_addr` is 1024
bytes after `wifi_fw_addr`. -/
theorem clm_addr_offset_align_up_512_witness :
    sample_image.CYW43_WIFI_FW_LEN + 511 < 2 ^ (ilp32.int_bits - 1) ∧
    (cyw43_firmware_details ilp32 sample_image ⟨false, false⟩ zero_details).clm_addr
      - (cyw43_firmware_details ilp32 sample_image ⟨false, false⟩ zero_details).wifi_fw_addr
      = 1024 := by
  refine ⟨by decide, ?_⟩
  obtain ⟨k, _, hk, hdvd, hlo, hhi, _⟩ :=
    clm_addr_offset_align_up_512 ilp32 sample_image ⟨false, false⟩ zero_details (by decide)
  rw [hk]
  have hsz : (cyw43_firmware_details ilp32 sample_image ⟨false, false⟩
      zero_details).wifi_fw_size = 1000 := rfl
  rw [hsz] at hlo hhi
  omega

/-- C2 as stated fails: with the WiFi firmware at address 4 and
`CYW43_WIFI_FW_LEN = 1000`, `clm_addr` is 1028, which is not a multiple of 512
(the smallest multiple of 512 at or above 4 + 1000 is 1024). -/
theorem clm_addr_unaligned_base_counterexample :
    (cyw43_firmware_details ilp32 sample_image ⟨false, false⟩ zero_details).wifi_fw_addr = 4 ∧
    (cyw43_firmware_details ilp32 sample_image ⟨false, false⟩ zero_details).wifi_fw_size = 1000 ∧
    (cyw43_firmware_details ilp32 sample_image ⟨false, false⟩ zero_details).clm_addr = 1028 ∧
    ¬ ((512 : Int) ∣
      (cyw43_firmware_details ilp32 sample_image ⟨false, false⟩ zero_details).clm_addr) := by
  decide

/-- C2 amended: when `CYW43_WIFI_FW_LEN + 511` does not overflow `int`,
`clm_addr` is a multiple of 512 exactly when `wifi_fw_addr` is one; and for a
512-aligned `wifi_fw_addr`, `clm_addr` is the smallest multiple of 512 at or
above `wifi_fw_addr + wifi_fw_size`. -/
theorem clm_addr_align_up_of_aligned_base (t : target) (img : firmware_image)
    (cfg : build_config) (d : cyw43_firmware_details_t cfg.CYW43_ENABLE_BLUETOOTH)
    (h : img.CYW43_WIFI_FW_LEN + 511 < 2 ^ (t.int_bits - 1)) :
    ((512 : Int) ∣ (cyw43_firmware_details t img cfg d).clm_addr ↔
      (512 : Int) ∣ (cyw43_firmware_details t img cfg d).wifi_fw_addr) ∧
    ((512 : Int) ∣ (cyw43_firmware_details t img cfg d).wifi_fw_addr →
      (cyw43_firmware_details t img cfg d).wifi_fw_addr
          + (cyw43_firmware_details t img cfg d).wifi_fw_size
        ≤ (cyw43_firmware_details t img cfg d).clm_addr ∧
      (cyw43_firmware_details t img cfg d).clm_addr
        < (cyw43_firmware_details t img cfg d).wifi_fw_addr
          + (cyw43_firmware_details t img cfg d).wifi_fw_size + 512 ∧
      ∀ m : Int, 512 ∣ m →
        (cyw43_firmware_details t img cfg d).wifi_fw_addr
          + (cyw43_firmware_details t img cfg d).wifi_fw_size ≤ m →
        (cyw43_firmware_details t img cfg d).clm_addr ≤ m) := by
  rw [details_clm_addr_val t img cfg d h, (details_wifi_fw_size t img cfg d).1,
    (details_wifi_fw_size t img cfg d).2]
  refine ⟨by omega, ?_⟩
  intro ha
  refine ⟨by omega, by omega, ?_⟩
  intro m hm hle
  omega

/-- C2 amended at a 512-aligned base: firmware of 1000 bytes at address 4096
puts `clm_addr` at 5120. -/
theorem clm_addr_align_up_of_aligned_base_witness :
    aligned_image.CYW43_WIFI_FW_LEN + 511 < 2 ^ (ilp32.int_bits - 1) ∧
    (512 : Int) ∣
      (cyw43_firmware_details ilp32 aligned_image ⟨false, false⟩ zero_details).wifi_fw_addr ∧
    (512 : Int) ∣
      (cyw43_firmware_details ilp32 aligned_image ⟨false, false⟩ zero_details).clm_addr :=
  ⟨by decide, by decide,
    (clm_addr_align_up_of_aligned_base ilp32 aligned_image ⟨false, false⟩ zero_details
      (by decide)).1.mpr (by decide)⟩

/-- C3: when `sizeof(wifi_nvram_4343) + 63` does not overflow `size_t`,
`wifi_nvram_len`, the value of `(sizeof(wifi_nvram_4343) + 63) & ~63` with the
`int` mask converted to `size_t`, is the smallest multiple of 64 at or above the
raw length: a multiple of 64 with `n ≤ wifi_nvram_len < n + 64`, equal to `n`
when `n` is a multiple of 64. -/
theorem wifi_nvram_len_align_up_64 (t : target) (img : firmware_image)
    (cfg : build_config) (d : cyw43_firmware_details_t cfg.CYW43_ENABLE_BLUETOOTH)
    (h : img.sizeof_wifi_nvram_4343 + 63 < 2 ^ t.size_bits) :
    64 ∣ (cyw43_firmware_details t img cfg d).wifi_nvram_len ∧
    img.sizeof_wifi_nvram_4343 ≤ (cyw43_firmware_details t img cfg d).wifi_nvram_len ∧
    (cyw43_firmware_details t img cfg d).wifi_nvram_len < img.sizeof_wifi_nvram_4343 + 64 ∧
    (64 ∣ img.sizeof_wifi_nvram_4343 →
      (cyw43_firmware_details t img cfg d).wifi_nvram_len = img.sizeof_wifi_nvram_4343) ∧
    ∀ m : Nat, 64 ∣ m → img.sizeof_wifi_nvram_4343 ≤ m →
      (cyw43_firmware_details t img cfg d).wifi_nvram_len ≤ m := by
  rw [details_wifi_nvram_len, nvram_len_eq t img.sizeof_wifi_nvram_4343 h]
  refine ⟨by omega, by omega, by omega, ?_, ?_⟩
  · intro hd; omega
  · intro m hm hle; omega

/-- C3 at a raw NVRAM length of 10 on the 32-bit target: `wifi_nvram_len` is 64. -/
theorem wifi_nvram_len_align_up_64_witness :
    sample_image.sizeof_wifi_nvram_4343 + 63 < 2 ^ ilp32.size_bits ∧
    (cyw43_firmware_details ilp32 sample_image ⟨false, false⟩ zero_details).wifi_nvram_len
      = 64 := by
  refine ⟨by decide, ?_⟩
  obtain ⟨hdvd, hlo, hhi, _, _⟩ :=
    wifi_nvram_len_align_up_64 ilp32 sample_image ⟨false, false⟩ zero_details (by decide)
  have hn : sample_image.sizeof_wifi_nvram_4343 = 10 := rfl
  rw [hn] at hlo hhi
  omega

/-! ## The loader table -/

/-- C4: the table is chosen by the compression flag alone. With compression the
six slots `start_wifi_fw`, `start_bt_fw`, `get_wifi_fw`, `get_bt_fw`, `copy_clm`
and `end` hold the six decompression functions; without it the three slots
`get_wifi_fw`, `get_bt_fw`, `copy_clm` hold the embedded functions and no slot
holds a decompression function. In either build every function bound in these
six slots belongs to one backend. -/
theorem funcs_binds_one_backend (bluetooth : Bool) :
    (cyw43_firmware_funcs ⟨bluetooth, true⟩).start_wifi_fw
      = some .cyw43_wifi_firmware_decompress_start ∧
    (cyw43_firmware_funcs ⟨bluetooth, true⟩).start_bt_fw
      = some .cyw43_bt_firmware_decompress_start ∧
    (cyw43_firmware_funcs ⟨bluetooth, true⟩).get_wifi_fw
      = some .cyw43_firmware_decompress_get ∧
    (cyw43_firmware_funcs ⟨bluetooth, true⟩).get_bt_fw
      = some .cyw43_firmware_decompress_get ∧
    (cyw43_firmware_funcs ⟨bluetooth, true⟩).copy_clm
      = some .cyw43_firmware_decompress_copy ∧
    (cyw43_firmware_funcs ⟨bluetooth, true⟩).end_fw
      = some .cyw43_firmware_decompress_end ∧
    (cyw43_firmware_funcs ⟨bluetooth, false⟩).get_wifi_fw
      = some .cyw43_firmware_embedded_get ∧
    (cyw43_firmware_funcs ⟨bluetooth, false⟩).get_bt_fw
      = some .cyw43_firmware_embedded_get ∧
    (cyw43_firmware_funcs ⟨bluetooth, false⟩).copy_clm
      = some .cyw43_firmware_copy_embedded ∧
    backend.decompress ∉ bound_backends (cyw43_firmware_funcs ⟨bluetooth, false⟩) ∧
    backend.decompress
      ∉ ((cyw43_firmware_funcs ⟨bluetooth, false⟩).get_nvram.map get_fn.backend).toList ∧
    (∀ b ∈ bound_backends (cyw43_firmware_funcs ⟨bluetooth, true⟩), b = backend.decompress) ∧
    (∀ b ∈ bound_backends (cyw43_firmware_funcs ⟨bluetooth, false⟩), b = backend.embedded) ∧
    (∀ cfg cfg' : build_config,
      cfg.CYW43_ENABLE_FIRMWARE_COMPRESSION = cfg'.CYW43_ENABLE_FIRMWARE_COMPRESSION →
      cyw43_firmware_funcs cfg = cyw43_firmware_funcs cfg') := by
  refine ⟨rfl, rfl, rfl, rfl, rfl, rfl, rfl, rfl, rfl, ?_, ?_, ?_, ?_, ?_⟩
  · cases bluetooth <;> decide
  · cases bluetooth <;> decide
  · cases bluetooth <;> decide
  · cases bluetooth <;> decide
  intro cfg cfg' h
  unfold cyw43_firmware_funcs
  rw [h]

/-- C5: in every build the `get_nvram` slot holds `cyw43_firmware_embedded_get`,
so it is the same with and without compression and is never
`cyw43_firmware_decompress_get`. -/
theorem get_nvram_always_embedded (cfg cfg' : build_config) :
    (cyw43_firmware_funcs cfg).get_nvram = some .cyw43_firmware_embedded_get ∧
    (cyw43_firmware_funcs cfg).get_nvram ≠ some .cyw43_firmware_decompress_get ∧
    (cyw43_firmware_funcs cfg).get_nvram = (cyw43_firmware_funcs cfg').get_nvram := by
  have key : ∀ c : build_config,
      (cyw43_firmware_funcs c).get_nvram = some .cyw43_firmware_embedded_get := by
    intro c
    unfold cyw43_firmware_funcs
    cases c.CYW43_ENABLE_FIRMWARE_COMPRESSION <;> rfl
  refine ⟨key cfg, ?_, ?_⟩
  · rw [key cfg]; decide
  · rw [key cfg, key cfg']

/-- C6 as stated fails: without compression the `start_wifi_fw`, `start_bt_fw`
and `end` slots are null, so even with bodies that do nothing and return 0 a call
through `start_wifi_fw` has no result. -/
theorem start_slot_not_callable_counterexample :
    (cyw43_firmware_funcs ⟨false, false⟩).start_wifi_fw = none ∧
    (cyw43_firmware_funcs ⟨false, false⟩).start_bt_fw = none ∧
    (cyw43_firmware_funcs ⟨false, false⟩).end_fw = none ∧
    ¬ ∃ r : Int × Unit,
      call_start idle_start (cyw43_firmware_funcs ⟨false, false⟩).start_wifi_fw
        zero_details () = some r := by
  refine ⟨rfl, rfl, rfl, ?_⟩
  rintro ⟨r, hr⟩
  exact Option.noConfusion hr

/-- C6 amended: without compression the `start_wifi_fw`, `start_bt_fw` and `end`
slots are null pointers: no function is bound, and for every behaviour of the
declared functions a call through any of the three has no result. -/
theorem start_end_slots_null_without_compression (bluetooth : Bool) (σ : Type)
    (start_body : start_fn → cyw43_firmware_details_t bluetooth → σ → Int × σ)
    (end_body : end_fn → σ → σ)
    (fw_details : cyw43_firmware_details_t bluetooth) (s : σ) :
    (cyw43_firmware_funcs ⟨bluetooth, false⟩).start_wifi_fw = none ∧
    (cyw43_firmware_funcs ⟨bluetooth, false⟩).start_bt_fw = none ∧
    (cyw43_firmware_funcs ⟨bluetooth, false⟩).end_fw = none ∧
    call_start start_body (cyw43_firmware_funcs ⟨bluetooth, false⟩).start_wifi_fw
      fw_details s = none ∧
    call_start start_body (cyw43_firmware_funcs ⟨bluetooth, false⟩).start_bt_fw
      fw_details s = none ∧
    call_end end_body (cyw43_firmware_funcs ⟨bluetooth, false⟩).end_fw s = none :=
  ⟨rfl, rfl, rfl, rfl, rfl, rfl⟩

/-- C10: in every build `get_bt_fw` holds the very function `get_wifi_fw` holds
(`cyw43_firmware_decompress_get` with compression, `cyw43_firmware_embedded_get`
without), so for every behaviour of the declared functions, all arguments and
every state, a call through `get_bt_fw` has the result and the final state of the
same call through `get_wifi_fw`. -/
theorem get_bt_fw_same_as_get_wifi_fw (cfg : build_config) (σ : Type)
    (body : get_fn → Int → Nat → Int → Nat → σ → Int × σ)
    (addr : Int) (sz_in : Nat) (buffer : Int) (buffer_len : Nat) (s : σ) :
    (cyw43_firmware_funcs cfg).get_bt_fw = (cyw43_firmware_funcs cfg).get_wifi_fw ∧
    (cyw43_firmware_funcs cfg).get_wifi_fw
      = some (if cfg.CYW43_ENABLE_FIRMWARE_COMPRESSION then
          get_fn.cyw43_firmware_decompress_get else get_fn.cyw43_firmware_embedded_get) ∧
    call_get body (cyw43_firmware_funcs cfg).get_bt_fw addr sz_in buffer buffer_len s
      = call_get body (cyw43_firmware_funcs cfg).get_wifi_fw addr sz_in buffer buffer_len s ∧
    call_get body (cyw43_firmware_funcs cfg).get_bt_fw addr sz_in buffer buffer_len s
      = some (body (if cfg.CYW43_ENABLE_FIRMWARE_COMPRESSION then
          get_fn.cyw43_firmware_decompress_get else get_fn.cyw43_firmware_embedded_get)
          addr sz_in buffer buffer_len s) := by
  unfold cyw43_firmware_funcs
  cases cfg.CYW43_ENABLE_FIRMWARE_COMPRESSION <;> exact ⟨rfl, rfl, rfl, rfl⟩

/-! ## Frame of the two accessors -/

/-- C8: the function is total and its result does not depend on what the caller
record held: two calls on any two records give equal records, every one of the
eight members holds a value fixed by the build, and in a Bluetooth build so do
the three Bluetooth members. -/
theorem details_overwrites_every_member (t : target) (img : firmware_image)
    (cfg : build_config) (d d' : cyw43_firmware_details_t cfg.CYW43_ENABLE_BLUETOOTH) :
    cyw43_firmware_details t img cfg d = cyw43_firmware_details t img cfg d' ∧
    (cyw43_firmware_details t img cfg d).raw_wifi_fw_size = img.fw_data_len ∧
    (cyw43_firmware_details t img cfg d).raw_data = img.fw_data ∧
    (cyw43_firmware_details t img cfg d).wifi_fw_size = img.CYW43_WIFI_FW_LEN ∧
    (cyw43_firmware_details t img cfg d).clm_size = img.CYW43_CLM_LEN ∧
    (cyw43_firmware_details t img cfg d).wifi_fw_addr = img.fw_data ∧
    (cyw43_firmware_details t img cfg d).clm_addr
      = ptr_add t img.fw_data
          (bit_and (int_add t img.CYW43_WIFI_FW_LEN 511) (int_not t 511)) ∧
    (cyw43_firmware_details t img cfg d).wifi_nvram_len
      = bit_and (size_add t img.sizeof_wifi_nvram_4343 (size_of_int t 63))
          (size_of_int t (int_not t 63)) ∧
    (cyw43_firmware_details t img cfg d).wifi_nvram_data = img.wifi_nvram_4343 ∧
    bt_view cfg.CYW43_ENABLE_BLUETOOTH (cyw43_firmware_details t img cfg d).bt
      = if cfg.CYW43_ENABLE_BLUETOOTH then
          some ⟨img.bt_fw_data_len, img.CYW43_BT_FW_LEN, img.bt_fw_data⟩
        else none := by
  obtain ⟨bluetooth, compression⟩ := cfg
  cases bluetooth
  · exact ⟨rfl, rfl, rfl, rfl, rfl, rfl, rfl, rfl, rfl, rfl⟩
  · exact ⟨rfl, rfl, rfl, rfl, rfl, rfl, rfl, rfl, rfl, rfl⟩

/-- C9 as stated fails: in a build without Bluetooth (compression on) the table
already binds `start_bt_fw` and `get_bt_fw`, and the table of the Bluetooth build
is the same table: enabling Bluetooth adds no operation. -/
theorem funcs_gain_bt_operations_counterexample :
    (cyw43_firmware_funcs ⟨false, true⟩).start_bt_fw
      = some .cyw43_bt_firmware_decompress_start ∧
    (cyw43_firmware_funcs ⟨false, true⟩).get_bt_fw
      = some .cyw43_firmware_decompress_get ∧
    (cyw43_firmware_funcs ⟨false, false⟩).get_bt_fw
      = some .cyw43_firmware_embedded_get ∧
    cyw43_firmware_funcs ⟨true, true⟩ = cyw43_firmware_funcs ⟨false, true⟩ ∧
    cyw43_firmware_funcs ⟨true, false⟩ = cyw43_firmware_funcs ⟨false, false⟩ := by
  decide

/-- C9 amended: between the build with Bluetooth and the build without, all else
equal, the record gains the three members `raw_bt_fw_size = bt_fw_data_len`,
`bt_fw_size = CYW43_BT_FW_LEN`, `bt_fw_addr = bt_fw_data`, its eight other
members are filled with the same values, and the loader table is the same table
in all seven slots. -/
theorem bluetooth_flag_frame (t : target) (img : firmware_image) (compression : Bool)
    (d_off : cyw43_firmware_details_t false) (d_on : cyw43_firmware_details_t true) :
    bt_view false (cyw43_firmware_details t img ⟨false, compression⟩ d_off).bt = none ∧
    bt_view true (cyw43_firmware_details t img ⟨true, compression⟩ d_on).bt
      = some ⟨img.bt_fw_data_len, img.CYW43_BT_FW_LEN, img.bt_fw_data⟩ ∧
    (cyw43_firmware_details t img ⟨true, compression⟩ d_on).raw_wifi_fw_size
      = (cyw43_firmware_details t img ⟨false, compression⟩ d_off).raw_wifi_fw_size ∧
    (cyw43_firmware_details t img ⟨true, compression⟩ d_on).raw_data
      = (cyw43_firmware_details t img ⟨false, compression⟩ d_off).raw_data ∧
    (cyw43_firmware_details t img ⟨true, compression⟩ d_on).wifi_fw_size
      = (cyw43_firmware_details t img ⟨false, compression⟩ d_off).wifi_fw_size ∧
    (cyw43_firmware_details t img ⟨true, compression⟩ d_on).clm_size
      = (cyw43_firmware_details t img ⟨false, compression⟩ d_off).clm_size ∧
    (cyw43_firmware_details t img ⟨true, compression⟩ d_on).wifi_fw_addr
      = (cyw43_firmware_details t img ⟨false, compression⟩ d_off).wifi_fw_addr ∧
    (cyw43_firmware_details t img ⟨true, compression⟩ d_on).clm_addr
      = (cyw43_firmware_details t img ⟨false, compression⟩ d_off).clm_addr ∧
    (cyw43_firmware_details t img ⟨true, compression⟩ d_on).wifi_nvram_len
      = (cyw43_firmware_details t img ⟨false, compression⟩ d_off).wifi_nvram_len ∧
    (cyw43_firmware_details t img ⟨true, compression⟩ d_on).wifi_nvram_data
      = (cyw43_firmware_details t img ⟨false, compression⟩ d_off).wifi_nvram_data ∧
    cyw43_firmware_funcs ⟨true, compression⟩ = cyw43_firmware_funcs ⟨false, compression⟩ :=
  ⟨rfl, rfl, rfl, rfl, rfl, rfl, rfl, rfl, rfl, rfl, rfl⟩

end Cyw43
